import Mathlib

/-!
Verification of the two PostToolUse hook scripts in
`src/scripts/hooks/post-edit-typecheck-go.js` (VetHook and FormatHook).

Bytes on standard input are modelled as `List Char` (the scripts set utf8
encoding and manipulate JavaScript strings).  An absolute filesystem path is
a list of components below the root (`Dir`); `path.dirname` is `dropLast`
and the root is `[]`.  Calls into the outside world — `JSON.parse` together
with the `tool_input?.file_path` extraction, `path.resolve`, `fs.existsSync`
and the two `execFileSync` invocations — are supplied by an environment
record, so theorems quantify over every behaviour of the host system.
-/

/-- A path component (a directory or file name). -/
abbrev Comp := List Char

/-- An absolute path: its components below the filesystem root. -/
abbrev Dir := List Comp

/-- `MAX_STDIN = 1024 * 1024`: the 1 MiB stdin cap of both hooks. -/
def MAX_STDIN : Nat := 1024 * 1024

/-- One firing of the `process.stdin.on('data', ...)` handler of both
hooks: a chunk is appended in full when the buffer length is still below
`MAX_STDIN`, and dropped otherwise. -/
def accStep (d c : List Char) : List Char :=
  if d.length < MAX_STDIN then d ++ c else d

/-- The data handler folded over the whole chunk stream: the buffer held
when end-of-stream fires. -/
def accumulate (chunks : List (List Char)) : List Char :=
  chunks.foldl accStep []

/-- Concatenation of a list of character lists. -/
def concatAll (ls : List (List Char)) : List Char :=
  ls.foldr (fun a b => a ++ b) []

/-- `leadsWith n h` is true when `n` is an initial segment of `h`. -/
def leadsWith : List Char → List Char → Bool
  | [], _ => true
  | _ :: _, [] => false
  | a :: n, b :: h => a == b && leadsWith n h

/-- `listContains hay needle`: JavaScript `hay.includes(needle)`,
substring containment. -/
def listContains : List Char → List Char → Bool
  | [], needle => needle.isEmpty
  | h :: t, needle => leadsWith needle (h :: t) || listContains t needle

/-- The `/\.go$/.test(filePath)` check: the path ends in `.go`. -/
def endsWithDotGo (s : List Char) : Bool :=
  leadsWith ['o', 'g', '.'] s.reverse

/-- `path.basename` for a POSIX path string: the part after the last
separator. -/
def baseName (s : List Char) : List Char :=
  (s.reverse.takeWhile (fun c => !(c == '/'))).reverse

/-- The component `"go.mod"`. -/
def goModComp : Comp := "go.mod".toList

/-- `fs.existsSync(path.join(dir, 'go.mod'))` for an existence oracle
`ex`. -/
def goModAt (ex : Dir → Bool) (dir : Dir) : Bool :=
  ex (dir ++ [goModComp])

/-- The `while (dir !== root && depth < 20)` walk of VetHook, with
`fuel = 20 - depth` iterations remaining.  It stops on the first directory
holding `go.mod`, at the root, or when the fuel runs out, and returns the
directory where it stopped. -/
def walkLoop (ex : Dir → Bool) : Nat → Dir → Dir
  | 0, dir => dir
  | fuel + 1, dir =>
    if dir = [] then dir
    else if goModAt ex dir then dir
    else walkLoop ex fuel dir.dropLast

/-- The ancestor `d` levels above a directory (`path.dirname` iterated). -/
def ancestor : Nat → Dir → Dir
  | 0, dir => dir
  | d + 1, dir => ancestor d dir.dropLast

/-- Environment for VetHook: outcomes of its external calls.
`parseField data` is `none` when `JSON.parse(data)` throws, and otherwise
holds the value of `input.tool_input?.file_path` (absent field ↦ `none`).
`vet dir` is `none` when `go vet` exits 0 in `dir`, and otherwise carries
the combined stdout+stderr text of the failed run. -/
structure VetEnv where
  parseField : List Char → Option (Option (List Char))
  resolve : List Char → Dir
  fsExists : Dir → Bool
  vet : Dir → Option (List Char)

/-- Environment for FormatHook.  `fmtThrows fp` records whether
`execFileSync('goimports', ['-w', fp])` throws; the hook discards the
outcome either way. -/
structure FmtEnv where
  parseField : List Char → Option (Option (List Char))
  fmtThrows : List Char → Bool

/-- Observable outcome of one hook run: the payloads passed to
`console.log` and `console.error` in order, the working directories in
which `go vet` was spawned, the file arguments `goimports` was spawned on,
and the process exit code. -/
structure RunResult where
  stdoutWrites : List (List Char)
  stderrWrites : List (List Char)
  vetCalls : List Dir
  fmtCalls : List (List Char)
  exitCode : Nat
deriving DecidableEq, Repr

/-- The pure-passthrough outcome: one stdout write of the buffered data and
nothing else. -/
def passRes (data : List Char) : RunResult :=
  { stdoutWrites := [data], stderrWrites := [], vetCalls := [],
    fmtCalls := [], exitCode := 0 }

/-- The `line.includes(filePath) || line.includes(path.basename(filePath))`
filter predicate of VetHook. -/
def vetLineMatch (fp line : List Char) : Bool :=
  listContains line fp || listContains line (baseName fp)

/-- VetHook's `relevantLines`: split the combined output on newlines, keep
lines mentioning the edited file, and take the first 10. -/
def relevantLines (fp out : List Char) : List (List Char) :=
  ((out.splitOn '\n').filter (vetLineMatch fp)).take 10

/-- The `'[Hook] Go vet errors in ' + basename + ':'` banner line. -/
def vetBanner (fp : List Char) : List Char :=
  "[Hook] Go vet errors in ".toList ++ baseName fp ++ [':']

/-- VetHook's `process.stdin.on('end', ...)` handler applied to the
buffered data. -/
def vetEnd (env : VetEnv) (data : List Char) : RunResult :=
  match env.parseField data with
  | none => passRes data
  | some none => passRes data
  | some (some fp) =>
    if endsWithDotGo fp then
      let resolved := env.resolve fp
      if env.fsExists resolved then
        let dirF := walkLoop env.fsExists 20 resolved.dropLast
        if goModAt env.fsExists dirF then
          match env.vet dirF with
          | none =>
            { stdoutWrites := [data], stderrWrites := [],
              vetCalls := [dirF], fmtCalls := [], exitCode := 0 }
          | some out =>
            let rel := relevantLines fp out
            { stdoutWrites := [data],
              stderrWrites := if rel.isEmpty then [] else vetBanner fp :: rel,
              vetCalls := [dirF], fmtCalls := [], exitCode := 0 }
        else passRes data
      else passRes data
    else passRes data

/-- FormatHook's `process.stdin.on('end', ...)` handler applied to the
buffered data.  The inner `try { execFileSync(...) } catch {}` discards the
formatter's outcome, so the result does not depend on `env.fmtThrows`. -/
def fmtEnd (env : FmtEnv) (data : List Char) : RunResult :=
  match env.parseField data with
  | none => passRes data
  | some none => passRes data
  | some (some fp) =>
    if endsWithDotGo fp then
      { stdoutWrites := [data], stderrWrites := [], vetCalls := [],
        fmtCalls := [fp], exitCode := 0 }
    else passRes data

/-- A whole VetHook process run: buffer the chunk stream, then run the
end-of-stream handler. -/
def runVet (env : VetEnv) (chunks : List (List Char)) : RunResult :=
  vetEnd env (accumulate chunks)

/-- A whole FormatHook process run. -/
def runFmt (env : FmtEnv) (chunks : List (List Char)) : RunResult :=
  fmtEnd env (accumulate chunks)

/-- The byte stream a run emits on standard output: `console.log` writes
its payload followed by one newline. -/
def stdoutBytes (r : RunResult) : List Char :=
  concatAll (r.stdoutWrites.map (fun w => w ++ ['\n']))

/-! ## Helper lemmas about the stdin accumulation buffer -/

lemma accStep_of_full (d c : List Char) (h : MAX_STDIN ≤ d.length) :
    accStep d c = d := by
  unfold accStep
  rw [if_neg]
  omega

lemma accStep_small (d c : List Char) (h : d.length < MAX_STDIN) :
    accStep d c = d ++ c := by
  unfold accStep
  rw [if_pos h]

lemma foldl_accStep_of_full (more : List (List Char)) :
    ∀ d : List Char, MAX_STDIN ≤ d.length → more.foldl accStep d = d := by
  induction more with
  | nil => intro d _; rfl
  | cons c rest ih =>
    intro d hd
    simp only [List.foldl_cons, accStep_of_full d c hd]
    exact ih d hd

lemma accumulate_append_of_full (chunks more : List (List Char))
    (h : MAX_STDIN ≤ (accumulate chunks).length) :
    accumulate (chunks ++ more) = accumulate chunks := by
  unfold accumulate at *
  rw [List.foldl_append]
  exact foldl_accStep_of_full more _ h

lemma foldl_accStep_bound (B : Nat) (chunks : List (List Char)) :
    ∀ d : List Char, d.length ≤ MAX_STDIN - 1 + B →
      (∀ c ∈ chunks, c.length ≤ B) →
      (chunks.foldl accStep d).length ≤ MAX_STDIN - 1 + B := by
  induction chunks with
  | nil => intro d hd _; exact hd
  | cons c rest ih =>
    intro d hd hc
    simp only [List.foldl_cons]
    have hcB : c.length ≤ B := hc c (List.mem_cons_self c rest)
    have hrest : ∀ x ∈ rest, x.length ≤ B := fun x hx => hc x (List.mem_cons_of_mem c hx)
    refine ih (accStep d c) ?_ hrest
    unfold accStep
    split
    · rename_i hlt
      rw [List.length_append]
      have hM : 1 ≤ MAX_STDIN := by unfold MAX_STDIN; omega
      omega
    · exact hd

lemma accumulate_length_bound (B : Nat) (chunks : List (List Char))
    (hc : ∀ c ∈ chunks, c.length ≤ B) :
    (accumulate chunks).length ≤ MAX_STDIN - 1 + B := by
  unfold accumulate
  exact foldl_accStep_bound B chunks [] (by simp) hc

lemma concatAll_nil : concatAll [] = [] := rfl

lemma concatAll_cons (c : List Char) (rest : List (List Char)) :
    concatAll (c :: rest) = c ++ concatAll rest := rfl

lemma foldl_accStep_small (chunks : List (List Char)) :
    ∀ d : List Char, d.length + (concatAll chunks).length ≤ MAX_STDIN →
      chunks.foldl accStep d = d ++ concatAll chunks := by
  induction chunks with
  | nil => intro d _; simp [concatAll_nil]
  | cons c rest ih =>
    intro d hd
    rw [concatAll_cons, List.length_append] at hd
    simp only [List.foldl_cons]
    by_cases hlt : d.length < MAX_STDIN
    · have hstep : accStep d c = d ++ c := by unfold accStep; rw [if_pos hlt]
      rw [hstep, ih (d ++ c) (by rw [List.length_append]; omega)]
      rw [concatAll_cons, List.append_assoc]
    · have hdM : d.length = MAX_STDIN := by omega
      have hc0 : c.length = 0 := by omega
      have hr0 : (concatAll rest).length = 0 := by omega
      have hcnil : c = [] := List.eq_nil_of_length_eq_zero hc0
      have hstep : accStep d c = d := by
        unfold accStep; rw [if_neg hlt]
      rw [hstep, ih d (by omega)]
      rw [concatAll_cons, hcnil, List.nil_append]

lemma accumulate_eq_concatAll (chunks : List (List Char))
    (h : (concatAll chunks).length ≤ MAX_STDIN) :
    accumulate chunks = concatAll chunks := by
  unfold accumulate
  rw [foldl_accStep_small chunks [] (by simpa using h)]
  rfl

/-! ## Helper lemmas about the go.mod walk -/

lemma goModAt_walkLoop_iff (ex : Dir → Bool) :
    ∀ (fuel : Nat) (dir : Dir),
      goModAt ex (walkLoop ex fuel dir) = true ↔
        ∃ d, d ≤ min dir.length fuel ∧ goModAt ex (ancestor d dir) = true := by
  intro fuel
  induction fuel with
  | zero =>
    intro dir
    constructor
    · intro h
      exact ⟨0, Nat.zero_le _, h⟩
    · rintro ⟨d, hd, h⟩
      have hd0 : d = 0 := by omega
      subst hd0
      exact h
  | succ fuel ih =>
    intro dir
    by_cases hnil : dir = []
    · subst hnil
      rw [walkLoop]
      simp only [if_pos rfl]
      constructor
      · intro h
        exact ⟨0, by simp, h⟩
      · rintro ⟨d, hd, h⟩
        have hd0 : d = 0 := by simp at hd; omega
        subst hd0
        exact h
    · have hlen : 1 ≤ dir.length := List.length_pos.mpr hnil
      rw [walkLoop]
      rw [if_neg hnil]
      by_cases hm : goModAt ex dir = true
      · rw [if_pos hm]
        constructor
        · intro _
          exact ⟨0, Nat.zero_le _, hm⟩
        · intro _
          exact hm
      · rw [if_neg hm]
        rw [ih dir.dropLast]
        constructor
        · rintro ⟨d, hd, h⟩
          refine ⟨d + 1, ?_, h⟩
          rw [List.length_dropLast] at hd
          omega
        · rintro ⟨d, hd, h⟩
          cases d with
          | zero => exact absurd h hm
          | succ d =>
            refine ⟨d, ?_, h⟩
            rw [List.length_dropLast]
            omega

/-! ## Branch-reduction lemmas for the end-of-stream handlers -/

/-- Directory in which VetHook ends its walk for an edited path `fp`. -/
def walkFrom (env : VetEnv) (fp : List Char) : Dir :=
  walkLoop env.fsExists 20 (env.resolve fp).dropLast

lemma vetEnd_parse_err (env : VetEnv) (data : List Char)
    (hp : env.parseField data = none) :
    vetEnd env data = passRes data := by
  unfold vetEnd
  rw [hp]

lemma vetEnd_no_field (env : VetEnv) (data : List Char)
    (hp : env.parseField data = some none) :
    vetEnd env data = passRes data := by
  unfold vetEnd
  rw [hp]

lemma vetEnd_not_go (env : VetEnv) (data fp : List Char)
    (hp : env.parseField data = some (some fp))
    (hgo : endsWithDotGo fp = false) :
    vetEnd env data = passRes data := by
  unfold vetEnd
  rw [hp]
  simp only [hgo, Bool.false_eq_true, if_false]

lemma vetEnd_no_file (env : VetEnv) (data fp : List Char)
    (hp : env.parseField data = some (some fp))
    (hgo : endsWithDotGo fp = true)
    (hex : env.fsExists (env.resolve fp) = false) :
    vetEnd env data = passRes data := by
  unfold vetEnd
  rw [hp]
  simp only [hgo, if_true, hex, Bool.false_eq_true, if_false]

lemma vetEnd_no_mod (env : VetEnv) (data fp : List Char)
    (hp : env.parseField data = some (some fp))
    (hgo : endsWithDotGo fp = true)
    (hex : env.fsExists (env.resolve fp) = true)
    (hnm : goModAt env.fsExists (walkFrom env fp) = false) :
    vetEnd env data = passRes data := by
  unfold vetEnd
  rw [hp]
  unfold walkFrom at hnm
  simp only [hgo, if_true, hex, hnm, Bool.false_eq_true, if_false]

lemma vetEnd_vet_ok (env : VetEnv) (data fp : List Char)
    (hp : env.parseField data = some (some fp))
    (hgo : endsWithDotGo fp = true)
    (hex : env.fsExists (env.resolve fp) = true)
    (hfound : goModAt env.fsExists (walkFrom env fp) = true)
    (hvet : env.vet (walkFrom env fp) = none) :
    vetEnd env data =
      { stdoutWrites := [data], stderrWrites := [],
        vetCalls := [walkFrom env fp], fmtCalls := [], exitCode := 0 } := by
  unfold vetEnd
  rw [hp]
  unfold walkFrom at hfound hvet ⊢
  simp only [hgo, if_true, hex, hfound, hvet]

lemma vetEnd_vet_fail (env : VetEnv) (data fp out : List Char)
    (hp : env.parseField data = some (some fp))
    (hgo : endsWithDotGo fp = true)
    (hex : env.fsExists (env.resolve fp) = true)
    (hfound : goModAt env.fsExists (walkFrom env fp) = true)
    (hvet : env.vet (walkFrom env fp) = some out) :
    vetEnd env data =
      { stdoutWrites := [data],
        stderrWrites :=
          if (relevantLines fp out).isEmpty then []
          else vetBanner fp :: relevantLines fp out,
        vetCalls := [walkFrom env fp], fmtCalls := [], exitCode := 0 } := by
  unfold vetEnd
  rw [hp]
  unfold walkFrom at hfound hvet ⊢
  simp only [hgo, if_true, hex, hfound, hvet]

lemma fmtEnd_parse_err (env : FmtEnv) (data : List Char)
    (hp : env.parseField data = none) :
    fmtEnd env data = passRes data := by
  unfold fmtEnd
  rw [hp]

lemma fmtEnd_no_field (env : FmtEnv) (data : List Char)
    (hp : env.parseField data = some none) :
    fmtEnd env data = passRes data := by
  unfold fmtEnd
  rw [hp]

lemma fmtEnd_not_go (env : FmtEnv) (data fp : List Char)
    (hp : env.parseField data = some (some fp))
    (hgo : endsWithDotGo fp = false) :
    fmtEnd env data = passRes data := by
  unfold fmtEnd
  rw [hp]
  simp only [hgo, Bool.false_eq_true, if_false]

lemma fmtEnd_go (env : FmtEnv) (data fp : List Char)
    (hp : env.parseField data = some (some fp))
    (hgo : endsWithDotGo fp = true) :
    fmtEnd env data =
      { stdoutWrites := [data], stderrWrites := [], vetCalls := [],
        fmtCalls := [fp], exitCode := 0 } := by
  unfold fmtEnd
  rw [hp]
  simp only [hgo, if_true]

/-- On every branch, VetHook's end handler performs the single stdout write
`[data]`, never touches `fmtCalls`, and the process exits 0. -/
lemma vetEnd_shape (env : VetEnv) (data : List Char) :
    (vetEnd env data).stdoutWrites = [data] ∧
    (vetEnd env data).exitCode = 0 ∧
    (vetEnd env data).fmtCalls = [] := by
  unfold vetEnd
  cases hp : env.parseField data with
  | none => exact ⟨rfl, rfl, rfl⟩
  | some o =>
    cases o with
    | none => exact ⟨rfl, rfl, rfl⟩
    | some fp =>
      by_cases hgo : endsWithDotGo fp = true
      · simp only [hgo, if_true]
        by_cases hex : env.fsExists (env.resolve fp) = true
        · simp only [hex, if_true]
          by_cases hnm : goModAt env.fsExists
              (walkLoop env.fsExists 20 (env.resolve fp).dropLast) = true
          · simp only [hnm, if_true]
            cases hv : env.vet (walkLoop env.fsExists 20 (env.resolve fp).dropLast) with
            | none => exact ⟨rfl, rfl, rfl⟩
            | some out => exact ⟨rfl, rfl, rfl⟩
          · simp only [Bool.not_eq_true] at hnm
            simp only [hnm, Bool.false_eq_true, if_false]
            exact ⟨rfl, rfl, rfl⟩
        · simp only [Bool.not_eq_true] at hex
          simp only [hex, Bool.false_eq_true, if_false]
          exact ⟨rfl, rfl, rfl⟩
      · simp only [Bool.not_eq_true] at hgo
        simp only [hgo, Bool.false_eq_true, if_false]
        exact ⟨rfl, rfl, rfl⟩

/-- On every branch, FormatHook's end handler performs the single stdout
write `[data]`, writes nothing to stderr, spawns no `go vet`, and the
process exits 0. -/
lemma fmtEnd_shape (env : FmtEnv) (data : List Char) :
    (fmtEnd env data).stdoutWrites = [data] ∧
    (fmtEnd env data).exitCode = 0 ∧
    (fmtEnd env data).stderrWrites = [] ∧
    (fmtEnd env data).vetCalls = [] := by
  unfold fmtEnd
  cases hp : env.parseField data with
  | none => exact ⟨rfl, rfl, rfl, rfl⟩
  | some o =>
    cases o with
    | none => exact ⟨rfl, rfl, rfl, rfl⟩
    | some fp =>
      by_cases hgo : endsWithDotGo fp = true
      · simp [hgo]
      · simp only [Bool.not_eq_true] at hgo
        simp only [hgo, Bool.false_eq_true, if_false]
        exact ⟨rfl, rfl, rfl, rfl⟩

lemma stdoutBytes_of_single (r : RunResult) (data : List Char)
    (h : r.stdoutWrites = [data]) :
    stdoutBytes r = data ++ ['\n'] := by
  unfold stdoutBytes
  rw [h]
  simp [concatAll]

/-! ## Concrete environments used by counterexamples and witnesses -/

/-- A host where `JSON.parse` always throws. -/
def envParseErrV : VetEnv :=
  { parseField := fun _ => none, resolve := fun _ => [],
    fsExists := fun _ => false, vet := fun _ => none }

/-- A host where `JSON.parse` always throws (FormatHook side). -/
def envParseErrF : FmtEnv :=
  { parseField := fun _ => none, fmtThrows := fun _ => false }

/-! ## C9 -/

/-- C9: on every execution path of VetHook — including the early return
taken when the resolved file does not exist on disk — the accumulated input
is written to standard output exactly once: the list of stdout writes is
the one-element list holding the buffered input. -/
theorem c9_vet_single_stdout_write (env : VetEnv) (chunks : List (List Char)) :
    (runVet env chunks).stdoutWrites = [accumulate chunks] :=
  (vetEnd_shape env (accumulate chunks)).1

/-! ## C10 -/

/-- C10: for every input and every host behaviour, the byte stream each
hook emits on standard output is the accumulated (possibly cap-truncated)
input followed by exactly one appended newline character, since the output
write is a line-printing call. -/
theorem c10_newline_appended (envV : VetEnv) (envF : FmtEnv)
    (chunks : List (List Char)) :
    stdoutBytes (runVet envV chunks) = accumulate chunks ++ ['\n'] ∧
    stdoutBytes (runFmt envF chunks) = accumulate chunks ++ ['\n'] :=
  ⟨stdoutBytes_of_single _ _ (vetEnd_shape envV (accumulate chunks)).1,
   stdoutBytes_of_single _ _ (fmtEnd_shape envF (accumulate chunks)).1⟩

/-! ## C1 -/

/-- C1 counterexample: for the three-byte input `abc` (one chunk), the
bytes either hook writes to standard output differ from the original input
bytes — a newline is appended — so the single end-of-stream write is not
exactly the original input. -/
theorem c1_counterexample :
    concatAll [['a', 'b', 'c']] = ['a', 'b', 'c'] ∧
    stdoutBytes (runVet envParseErrV [['a', 'b', 'c']]) ≠ ['a', 'b', 'c'] ∧
    stdoutBytes (runFmt envParseErrF [['a', 'b', 'c']]) ≠ ['a', 'b', 'c'] := by
  decide

/-- C1 (amended): for every input byte stream and every execution path,
each hook performs a single stdout write at end-of-stream whose payload is
the accumulated input — equal to the original input bytes whenever the
total input fits within the 1 MiB cap — and the line-printing call appends
exactly one newline to that payload. -/
theorem c1_passthrough_amended (envV : VetEnv) (envF : FmtEnv)
    (chunks : List (List Char)) :
    (runVet envV chunks).stdoutWrites = [accumulate chunks] ∧
    (runFmt envF chunks).stdoutWrites = [accumulate chunks] ∧
    stdoutBytes (runVet envV chunks) = accumulate chunks ++ ['\n'] ∧
    stdoutBytes (runFmt envF chunks) = accumulate chunks ++ ['\n'] ∧
    ((concatAll chunks).length ≤ MAX_STDIN → accumulate chunks = concatAll chunks) := by
  refine ⟨(vetEnd_shape envV (accumulate chunks)).1,
          (fmtEnd_shape envF (accumulate chunks)).1,
          stdoutBytes_of_single _ _ (vetEnd_shape envV (accumulate chunks)).1,
          stdoutBytes_of_single _ _ (fmtEnd_shape envF (accumulate chunks)).1,
          fun h => accumulate_eq_concatAll chunks h⟩

/-- C1 witness: the amended statement evaluated on the concrete one-chunk
input `abc`, whose total length is within the cap. -/
theorem c1_witness :
    (runVet envParseErrV [['a', 'b', 'c']]).stdoutWrites = [accumulate [['a', 'b', 'c']]] ∧
    accumulate [['a', 'b', 'c']] = concatAll [['a', 'b', 'c']] :=
  ⟨(c1_passthrough_amended envParseErrV envParseErrF [['a', 'b', 'c']]).1,
   (c1_passthrough_amended envParseErrV envParseErrF [['a', 'b', 'c']]).2.2.2.2
     (by decide)⟩

/-! ## C2 -/

/-- C2 counterexample: for the concrete one-chunk input `nope`, which the
host's `JSON.parse` rejects, both hooks do exit 0 and spawn nothing, yet
the bytes written to standard output are not exactly the original bytes: a
newline is appended by the line-printing call. -/
theorem c2_counterexample :
    envParseErrV.parseField (accumulate [['n', 'o', 'p', 'e']]) = none ∧
    envParseErrF.parseField (accumulate [['n', 'o', 'p', 'e']]) = none ∧
    stdoutBytes (runVet envParseErrV [['n', 'o', 'p', 'e']]) ≠ concatAll [['n', 'o', 'p', 'e']] ∧
    stdoutBytes (runFmt envParseErrF [['n', 'o', 'p', 'e']]) ≠ concatAll [['n', 'o', 'p', 'e']] := by
  decide

/-- C2 (amended): for every input whose buffered bytes `JSON.parse`
rejects, both hooks exit 0, perform the pure passthrough — a single stdout
write of the buffered original bytes, to which the line-printing call
appends one newline — spawn no subprocess, and write nothing to the error
stream. -/
theorem c2_invalid_json_amended (envV : VetEnv) (envF : FmtEnv)
    (chunks : List (List Char))
    (hV : envV.parseField (accumulate chunks) = none)
    (hF : envF.parseField (accumulate chunks) = none) :
    runVet envV chunks = passRes (accumulate chunks) ∧
    runFmt envF chunks = passRes (accumulate chunks) ∧
    (runVet envV chunks).exitCode = 0 ∧
    (runFmt envF chunks).exitCode = 0 ∧
    (runVet envV chunks).vetCalls = [] ∧
    (runFmt envF chunks).fmtCalls = [] ∧
    (runVet envV chunks).stderrWrites = [] ∧
    (runFmt envF chunks).stderrWrites = [] ∧
    stdoutBytes (runVet envV chunks) = accumulate chunks ++ ['\n'] ∧
    stdoutBytes (runFmt envF chunks) = accumulate chunks ++ ['\n'] := by
  have hv : runVet envV chunks = passRes (accumulate chunks) :=
    vetEnd_parse_err envV (accumulate chunks) hV
  have hf : runFmt envF chunks = passRes (accumulate chunks) :=
    fmtEnd_parse_err envF (accumulate chunks) hF
  exact ⟨hv, hf, by rw [hv]; rfl, by rw [hf]; rfl, by rw [hv]; rfl,
    by rw [hf]; rfl, by rw [hv]; rfl, by rw [hf]; rfl,
    stdoutBytes_of_single _ _ (by rw [hv]; rfl),
    stdoutBytes_of_single _ _ (by rw [hf]; rfl)⟩

/-- C2 witness: the amended statement evaluated at a concrete host that
rejects the input `nj`. -/
theorem c2_witness :
    runVet envParseErrV [['n', 'j']] = passRes (accumulate [['n', 'j']]) ∧
    runFmt envParseErrF [['n', 'j']] = passRes (accumulate [['n', 'j']]) := by
  have h := c2_invalid_json_amended envParseErrV envParseErrF [['n', 'j']]
    (by decide) (by decide)
  exact ⟨h.1, h.2.1⟩

/-! ## C6 -/

/-- C6: for every valid JSON input whose file-path field is absent, or
whose path does not end in `.go`, both hooks spawn no subprocess and
behave as the pure passthrough. -/
theorem c6_skip_non_go (envV : VetEnv) (envF : FmtEnv)
    (chunks : List (List Char)) (r : Option (List Char))
    (hV : envV.parseField (accumulate chunks) = some r)
    (hF : envF.parseField (accumulate chunks) = some r)
    (hr : ∀ fp, r = some fp → endsWithDotGo fp = false) :
    runVet envV chunks = passRes (accumulate chunks) ∧
    runFmt envF chunks = passRes (accumulate chunks) ∧
    (runVet envV chunks).vetCalls = [] ∧
    (runFmt envF chunks).fmtCalls = [] := by
  have hv : runVet envV chunks = passRes (accumulate chunks) := by
    cases r with
    | none => exact vetEnd_no_field envV (accumulate chunks) hV
    | some fp => exact vetEnd_not_go envV (accumulate chunks) fp hV (hr fp rfl)
  have hf : runFmt envF chunks = passRes (accumulate chunks) := by
    cases r with
    | none => exact fmtEnd_no_field envF (accumulate chunks) hF
    | some fp => exact fmtEnd_not_go envF (accumulate chunks) fp hF (hr fp rfl)
  exact ⟨hv, hf, by rw [hv]; rfl, by rw [hf]; rfl⟩

/-- A host whose event JSON parses but carries no `file_path` field. -/
def envNoFieldV : VetEnv :=
  { parseField := fun _ => some none, resolve := fun _ => [],
    fsExists := fun _ => false, vet := fun _ => none }

/-- A host whose event JSON parses but carries no `file_path` field
(FormatHook side). -/
def envNoFieldF : FmtEnv :=
  { parseField := fun _ => some none, fmtThrows := fun _ => false }

/-- C6 witness: the claim evaluated at a concrete host whose event JSON
lacks the file-path field. -/
theorem c6_witness :
    runVet envNoFieldV [['o', 'k']] = passRes (accumulate [['o', 'k']]) ∧
    runFmt envNoFieldF [['o', 'k']] = passRes (accumulate [['o', 'k']]) := by
  have h := c6_skip_non_go envNoFieldV envNoFieldF [['o', 'k']] none
    (by decide) (by decide) (fun fp hfp => nomatch hfp)
  exact ⟨h.1, h.2.1⟩

/-! ## C5 -/

/-- The chunk stream refuting the strict 1 MiB bound: a first chunk of
`MAX_STDIN - 1` bytes followed by a two-byte chunk. -/
def c5chunks : List (List Char) :=
  [List.replicate (MAX_STDIN - 1) 'a', ['b', 'c']]

/-- C5 counterexample: a chunk arriving while the buffer is one byte below
the cap is appended whole, so the buffer ends at `MAX_STDIN + 1` bytes —
bytes arriving beyond the cap were appended and the buffer exceeds
1 MiB. -/
theorem c5_counterexample :
    accumulate c5chunks = List.replicate (MAX_STDIN - 1) 'a' ++ ['b', 'c'] ∧
    MAX_STDIN < (accumulate c5chunks).length := by
  have hM : 1 ≤ MAX_STDIN := by unfold MAX_STDIN; omega
  have h1 : accumulate c5chunks = List.replicate (MAX_STDIN - 1) 'a' ++ ['b', 'c'] := by
    unfold accumulate c5chunks
    rw [List.foldl_cons, List.foldl_cons, List.foldl_nil]
    rw [accStep_small [] (List.replicate (MAX_STDIN - 1) 'a') (by simpa using hM)]
    rw [List.nil_append]
    rw [accStep_small (List.replicate (MAX_STDIN - 1) 'a') ['b', 'c']
      (by rw [List.length_replicate]; omega)]
  refine ⟨h1, ?_⟩
  rw [h1, List.length_append, List.length_replicate]
  simp only [List.length_cons, List.length_nil]
  omega

/-- C5 (amended): the buffer stops accepting chunks only once its length
has reached the cap — a chunk arriving when the buffer is at or beyond
1 MiB is dropped whole, and the rest of the stream leaves the buffer
unchanged while still being consumed — but a chunk arriving while the
buffer is below the cap is appended in full, so the buffer is bounded by
`MAX_STDIN - 1` plus the maximum chunk size, not by 1 MiB itself. -/
theorem c5_cap_amended :
    (∀ d c : List Char, MAX_STDIN ≤ d.length → accStep d c = d) ∧
    (∀ chunks more : List (List Char), MAX_STDIN ≤ (accumulate chunks).length →
      accumulate (chunks ++ more) = accumulate chunks) ∧
    (∀ (B : Nat) (chunks : List (List Char)), (∀ c ∈ chunks, c.length ≤ B) →
      (accumulate chunks).length ≤ MAX_STDIN - 1 + B) :=
  ⟨accStep_of_full, accumulate_append_of_full, accumulate_length_bound⟩

/-- C5 witness: a full buffer drops the next chunk, and a short stream of
chunks of length at most 2 stays within the amended bound. -/
theorem c5_witness :
    accStep (List.replicate MAX_STDIN 'a') ['z'] = List.replicate MAX_STDIN 'a' ∧
    (accumulate [['a', 'b']]).length ≤ MAX_STDIN - 1 + 2 :=
  ⟨c5_cap_amended.1 _ _ (by simp),
   c5_cap_amended.2.2 2 [['a', 'b']] (by decide)⟩

/-! ## C3 -/

/-- The directory component `a`. -/
def aComp : Comp := ['a']

/-- The edited-path string used by the depth-20 scenario. -/
def fpC3 : List Char := ['x', '.', 'g', 'o']

/-- Resolved location of the edited file: 21 nested directories below the
root, then the file itself. -/
def resolvedC3 : Dir := List.replicate 21 aComp ++ [['x', '.', 'g', 'o']]

/-- A filesystem holding exactly the edited file and one `go.mod`, placed
in the top-level directory — depth 20 above the file's directory. -/
def exC3fun : Dir → Bool :=
  fun p => p == [aComp, goModComp] || p == resolvedC3

/-- Host for the depth-20 scenario. -/
def envC3 : VetEnv :=
  { parseField := fun _ => some (some fpC3), resolve := fun _ => resolvedC3,
    fsExists := exC3fun, vet := fun _ => none }

/-- The directory VetHook starts its walk from in that scenario. -/
def dirC3 : Dir := resolvedC3.dropLast

/-- C3 counterexample: the nearest `go.mod` sits exactly 20 levels above
the edited file's directory (no marker at depths 0 through 19), yet the
walk still finds it — the loop's final directory is re-checked after the
loop exits — so VetHook runs the analysis instead of falling back to
passthrough without analysis. -/
theorem c3_counterexample :
    ((List.range 20).all fun d => !(goModAt envC3.fsExists (ancestor d dirC3))) = true ∧
    goModAt envC3.fsExists (ancestor 20 dirC3) = true ∧
    dirC3.length = 21 ∧
    (runVet envC3 [['h', 'i']]).vetCalls = [[aComp]] := by
  decide

/-- C3 (amended): once VetHook reaches the walk (parsed path ending in
`.go`, resolved file present), it runs the analysis exactly when a
`go.mod` exists at some depth `d ≤ min(L, 20)` above the file's directory,
where `L` is that directory's distance to the filesystem root: depths 0
through 19 are probed inside the loop, and the directory where the loop
halts — the depth-20 ancestor, or the root when nearer — is probed once
more after the loop.  The walk therefore succeeds for nearest-marker
depths 0 through 20 (not only 0 through 19) and falls back to passthrough
without analysis only when every marker is at depth 21 or more, or none
exists up to the root. -/
theorem c3_walk_amended (env : VetEnv) (chunks : List (List Char)) (fp : List Char)
    (hp : env.parseField (accumulate chunks) = some (some fp))
    (hgo : endsWithDotGo fp = true)
    (hex : env.fsExists (env.resolve fp) = true) :
    (runVet env chunks).vetCalls ≠ [] ↔
      ∃ d, d ≤ min ((env.resolve fp).dropLast).length 20 ∧
        goModAt env.fsExists (ancestor d ((env.resolve fp).dropLast)) = true := by
  rw [← goModAt_walkLoop_iff env.fsExists 20 (env.resolve fp).dropLast]
  by_cases hfound : goModAt env.fsExists (walkFrom env fp) = true
  · have hfound' := hfound
    unfold walkFrom at hfound'
    cases hv : env.vet (walkFrom env fp) with
    | none =>
      have hrw := vetEnd_vet_ok env (accumulate chunks) fp hp hgo hex hfound hv
      unfold runVet
      rw [hrw]
      simp [hfound']
    | some out =>
      have hrw := vetEnd_vet_fail env (accumulate chunks) fp out hp hgo hex hfound hv
      unfold runVet
      rw [hrw]
      simp [hfound']
  · have hnm : goModAt env.fsExists (walkFrom env fp) = false := by
      simpa using hfound
    have hrw := vetEnd_no_mod env (accumulate chunks) fp hp hgo hex hnm
    unfold runVet
    rw [hrw]
    unfold walkFrom at hnm
    simp [passRes, hnm]

/-- C3 witness: the amended statement applied to the depth-20 host, where
a marker at depth 20 makes the analysis run. -/
theorem c3_witness : (runVet envC3 [['h', 'i']]).vetCalls ≠ [] :=
  (c3_walk_amended envC3 [['h', 'i']] fpC3 (by decide) (by decide) (by decide)).mpr
    ⟨20, by decide, by decide⟩

/-! ## C4 -/

/-- The edited-path string `/a/x.go` used by the concrete vet-failure and
vet-success scenarios. -/
def fpAX : List Char := "/a/x.go".toList

/-- Its resolved location: directory `a` below the root, file `x.go`. -/
def resolvedAX : Dir := [['a'], ['x', '.', 'g', 'o']]

/-- Combined `go vet` output with 15 lines, 12 of which mention the edited
file's basename `x.go`. -/
def outC4 : List Char :=
  ("x.go:1\nx.go:2\nother1\nx.go:3\nx.go:4\nx.go:5\nother2\nx.go:6\n" ++
   "x.go:7\nx.go:8\nx.go:9\nx.go:10\nother3\nx.go:11\nx.go:12").toList

/-- Host for the vet-failure scenario: the event parses to `/a/x.go`,
every filesystem probe succeeds, and `go vet` fails with `outC4`. -/
def envC4 : VetEnv :=
  { parseField := fun _ => some (some fpAX), resolve := fun _ => resolvedAX,
    fsExists := fun _ => true, vet := fun _ => some outC4 }

/-- C4: when the analysis subprocess fails, VetHook's error-stream report
is the banner followed by exactly the lines of the combined output that
contain the edited file's full path or its base filename, truncated to the
first 10 such lines; those reported lines are a sublist of the output
lines (original order) and each one matches the filter; in particular, for
output of 15 lines of which 12 match, exactly the first 10 of those 12 are
printed. -/
theorem c4_relevant_lines (env : VetEnv) (chunks : List (List Char))
    (fp out : List Char)
    (hp : env.parseField (accumulate chunks) = some (some fp))
    (hgo : endsWithDotGo fp = true)
    (hex : env.fsExists (env.resolve fp) = true)
    (hfound : goModAt env.fsExists (walkFrom env fp) = true)
    (hvet : env.vet (walkFrom env fp) = some out) :
    ((runVet env chunks).stderrWrites =
      if (relevantLines fp out).isEmpty then []
      else vetBanner fp :: relevantLines fp out) ∧
    (relevantLines fp out).Sublist ((out.splitOn '\n').filter (vetLineMatch fp)) ∧
    (relevantLines fp out).Sublist (out.splitOn '\n') ∧
    (∀ l, l ∈ relevantLines fp out → vetLineMatch fp l = true) ∧
    ((out.splitOn '\n').length = 15 →
      ((out.splitOn '\n').filter (vetLineMatch fp)).length = 12 →
      (runVet env chunks).stderrWrites =
        vetBanner fp :: ((out.splitOn '\n').filter (vetLineMatch fp)).take 10 ∧
      (relevantLines fp out).length = 10) := by
  have hrw := vetEnd_vet_fail env (accumulate chunks) fp out hp hgo hex hfound hvet
  have hsud : (runVet env chunks).stderrWrites =
      if (relevantLines fp out).isEmpty then []
      else vetBanner fp :: relevantLines fp out := by
    unfold runVet
    rw [hrw]
  refine ⟨hsud, ?_, ?_, ?_, ?_⟩
  · exact List.take_sublist 10 _
  · exact (List.take_sublist 10 _).trans (List.filter_sublist _)
  · intro l hl
    have hl' : l ∈ (out.splitOn '\n').filter (vetLineMatch fp) :=
      List.mem_of_mem_take hl
    exact List.of_mem_filter hl'
  · intro _ h12
    have hlen : (relevantLines fp out).length = 10 := by
      unfold relevantLines
      rw [List.length_take, h12]
      omega
    have hne : (relevantLines fp out).isEmpty = false := by
      cases hrel : relevantLines fp out with
      | nil => rw [hrel] at hlen; simp at hlen
      | cons a t => rfl
    refine ⟨?_, hlen⟩
    rw [hsud, hne]
    rfl
  
/-- C4 witness: the concrete 15-line output with 12 matching lines — the
report is the banner followed by exactly 10 lines. -/
theorem c4_witness :
    (runVet envC4 [['z']]).stderrWrites = vetBanner fpAX :: relevantLines fpAX outC4 ∧
    (relevantLines fpAX outC4).length = 10 := by
  have h := c4_relevant_lines envC4 [['z']] fpAX outC4 (by decide) (by decide)
    (by decide) (by decide) (by decide)
  have h5 := h.2.2.2.2 (by decide) (by decide)
  exact ⟨h5.1, h5.2⟩

/-! ## C7 -/

/-- Host for the vet-success scenario: like `envC4` but `go vet` exits
0. -/
def envC7 : VetEnv :=
  { parseField := fun _ => some (some fpAX), resolve := fun _ => resolvedAX,
    fsExists := fun _ => true, vet := fun _ => none }

/-- C7 counterexample: with `go vet` exiting 0 on the concrete input `in`,
VetHook does keep the error stream empty and does run the analysis, but
the bytes on standard output are not equal to the original input — the
line-printing write appends a newline. -/
theorem c7_counterexample :
    envC7.vet (walkFrom envC7 fpAX) = none ∧
    (runVet envC7 [['i', 'n']]).stderrWrites = [] ∧
    (runVet envC7 [['i', 'n']]).vetCalls ≠ [] ∧
    stdoutBytes (runVet envC7 [['i', 'n']]) ≠ concatAll [['i', 'n']] := by
  decide

/-- C7 (amended): when the analysis subprocess exits 0, VetHook writes
nothing to the error stream, exits 0, and its single stdout write is still
the accumulated original input, to which the line-printing call appends
one newline. -/
theorem c7_vet_success_amended (env : VetEnv) (chunks : List (List Char))
    (fp : List Char)
    (hp : env.parseField (accumulate chunks) = some (some fp))
    (hgo : endsWithDotGo fp = true)
    (hex : env.fsExists (env.resolve fp) = true)
    (hfound : goModAt env.fsExists (walkFrom env fp) = true)
    (hvet : env.vet (walkFrom env fp) = none) :
    (runVet env chunks).stderrWrites = [] ∧
    (runVet env chunks).stdoutWrites = [accumulate chunks] ∧
    stdoutBytes (runVet env chunks) = accumulate chunks ++ ['\n'] ∧
    (runVet env chunks).exitCode = 0 := by
  have hrw := vetEnd_vet_ok env (accumulate chunks) fp hp hgo hex hfound hvet
  have hw : (runVet env chunks).stdoutWrites = [accumulate chunks] := by
    unfold runVet
    rw [hrw]
  refine ⟨?_, hw, stdoutBytes_of_single _ _ hw, ?_⟩
  · unfold runVet
    rw [hrw]
  · unfold runVet
    rw [hrw]

/-- C7 witness: the amended statement at the concrete vet-success host. -/
theorem c7_witness :
    (runVet envC7 [['i', 'n']]).stderrWrites = [] ∧
    (runVet envC7 [['i', 'n']]).stdoutWrites = [accumulate [['i', 'n']]] := by
  have h := c7_vet_success_amended envC7 [['i', 'n']] fpAX (by decide) (by decide)
    (by decide) (by decide) (by decide)
  exact ⟨h.1, h.2.1⟩

/-! ## C8 -/

/-- Host for the formatter-failure scenario: the event parses to
`/a/x.go` and `goimports` throws (binary not found). -/
def envC8 : FmtEnv :=
  { parseField := fun _ => some (some fpAX), fmtThrows := fun _ => true }

/-- C8 counterexample: with a throwing formatter on the concrete input
`hh`, FormatHook does exit 0 with no reporting, but the bytes it emits on
standard output differ from the original input — a newline is appended. -/
theorem c8_counterexample :
    envC8.fmtThrows fpAX = true ∧
    (runFmt envC8 [['h', 'h']]).exitCode = 0 ∧
    (runFmt envC8 [['h', 'h']]).stderrWrites = [] ∧
    stdoutBytes (runFmt envC8 [['h', 'h']]) ≠ concatAll [['h', 'h']] := by
  decide

/-- C8 (amended): for every failure of the formatter invocation, the
failure is caught and discarded with no reporting — the error stream stays
empty — the process exits 0, the formatter was invoked on the edited file,
and the single stdout write is still the accumulated original input, to
which the line-printing call appends one newline. -/
theorem c8_fmt_failure_amended (env : FmtEnv) (chunks : List (List Char))
    (fp : List Char)
    (hp : env.parseField (accumulate chunks) = some (some fp))
    (hgo : endsWithDotGo fp = true)
    (_hthrow : env.fmtThrows fp = true) :
    (runFmt env chunks).exitCode = 0 ∧
    (runFmt env chunks).stderrWrites = [] ∧
    (runFmt env chunks).stdoutWrites = [accumulate chunks] ∧
    stdoutBytes (runFmt env chunks) = accumulate chunks ++ ['\n'] ∧
    (runFmt env chunks).fmtCalls = [fp] := by
  have hrw := fmtEnd_go env (accumulate chunks) fp hp hgo
  have hw : (runFmt env chunks).stdoutWrites = [accumulate chunks] := by
    unfold runFmt
    rw [hrw]
  refine ⟨?_, ?_, hw, stdoutBytes_of_single _ _ hw, ?_⟩ <;>
    (unfold runFmt; rw [hrw])

/-- C8 witness: the amended statement at the concrete throwing-formatter
host. -/
theorem c8_witness :
    (runFmt envC8 [['q']]).exitCode = 0 ∧
    (runFmt envC8 [['q']]).fmtCalls = [fpAX] := by
  have h := c8_fmt_failure_amended envC8 [['q']] fpAX (by decide) (by decide)
    (by decide)
  exact ⟨h.1, h.2.2.2.2⟩
